import Mathlib

/-!
Shallow embedding of `process_gray` from
`android/app/src/main/cpp/mylib.cpp`, together with theorems about the
statistics it computes.

Modelling conventions:
* the pixel buffer is a total function `ℕ → ℕ` giving the raw byte at each
  offset; a `uint8_t` load reduces the stored value mod 256;
* a null `data` pointer is `none`, a non-null one is `some buf`;
* the C `int32_t` parameters are integers, with the range bound
  `< 2 ^ 31` carried as a hypothesis where it matters;
* `int64_t` arithmetic is embedded with an explicit wrap into the signed
  64-bit range at each multiplication the code performs on `int64_t`;
* `double` accumulation and the final narrowing to `float` are idealised
  as exact arithmetic: the accumulators are rationals and the returned
  fields are the corresponding real numbers, `std::sqrt` being `Real.sqrt`.
-/

namespace MyLib

/-- Reduction of an integer into the value range of `int64_t`,
as performed by C casts and arithmetic on `int64_t`. -/
def int64wrap (z : ℤ) : ℤ := (z + 2 ^ 63) % 2 ^ 64 - 2 ^ 63

/-- A `uint8_t` load from the buffer at byte offset `i`:
the stored raw value reduced mod 256. -/
def byteAt (buf : ℕ → ℕ) (i : ℕ) : ℕ := buf i % 256

/-- Byte offset of the start of row `y`:
the code computes `(int64_t)y * rowStride`. -/
def rowOff (rowStride : ℤ) (y : ℕ) : ℤ := int64wrap ((y : ℤ) * rowStride)

/-- The sample the code reads at row `y`, column `x`:
`row[x]` with `row = data + (int64_t)y * rowStride`. -/
def sample (buf : ℕ → ℕ) (rowStride : ℤ) (y x : ℕ) : ℕ :=
  byteAt buf ((rowOff rowStride y).toNat + x)

/-- First pass of `process_gray`: the sum of all samples of the
`width × height` region, accumulated over the two nested loops. -/
def sumSamples (buf : ℕ → ℕ) (rowStride : ℤ) (width height : ℕ) : ℕ :=
  ∑ y in Finset.range height, ∑ x in Finset.range width, sample buf rowStride y x

/-- Second pass of `process_gray`: the sum of squared deviations of the
samples from `m`, accumulated over the two nested loops. -/
def sumSqDev (buf : ℕ → ℕ) (rowStride : ℤ) (width height : ℕ) (m : ℚ) : ℚ :=
  ∑ y in Finset.range height, ∑ x in Finset.range width,
    ((sample buf rowStride y x : ℚ) - m) ^ 2

/-- The C struct `Result { float a; float b; }`, with the two `float`
fields idealised as real numbers. -/
structure Result where
  a : ℝ
  b : ℝ

/-- Shallow embedding of `process_gray(data, width, height, rowStride)`:
return `{0, 0}` when the pointer is null or any geometry parameter is
nonpositive, otherwise compute the mean in a first pass and the variance
against that mean in a second pass, and return `{mean, sqrt(var)}`. -/
noncomputable def process_gray (data : Option (ℕ → ℕ))
    (width height rowStride : ℤ) : Result :=
  match data with
  | none => ⟨0, 0⟩
  | some buf =>
    if width ≤ 0 ∨ height ≤ 0 ∨ rowStride ≤ 0 then ⟨0, 0⟩
    else
      let n : ℤ := int64wrap (width * height)
      let mean : ℚ := (sumSamples buf rowStride width.toNat height.toNat : ℚ) / (n : ℚ)
      let var : ℚ := sumSqDev buf rowStride width.toNat height.toNat mean / (n : ℚ)
      ⟨(mean : ℝ), Real.sqrt (var : ℝ)⟩

/-- Concrete two-pixel buffer used for sanity instances. -/
def bufA : ℕ → ℕ := fun i => [3, 5].getD i 0

/-- The padded row of the spec: two valid samples followed by two padding
bytes. -/
def padBuf : ℕ → ℕ := fun i => [10, 20, 99, 99].getD i 0

/-- Same valid samples as `padBuf`, different padding bytes. -/
def padBufAlt : ℕ → ℕ := fun i => [10, 20, 0, 7].getD i 0

/-- The 2x2 checkerboard buffer of the spec. -/
def checkerBuf : ℕ → ℕ := fun i => [0, 255, 0, 255].getD i 0

/-- A buffer whose every byte is 7. -/
def constBuf : ℕ → ℕ := fun _ => 7

lemma int64wrap_eq_self {z : ℤ} (h0 : -(2 ^ 63) ≤ z) (h1 : z < 2 ^ 63) :
    int64wrap z = z := by
  unfold int64wrap
  rw [Int.emod_eq_of_lt (by linarith) (by norm_num; linarith)]
  ring

lemma rowOff_eq {rowStride : ℤ} (y : ℕ) (hrs : 0 < rowStride)
    (hrsB : rowStride < 2 ^ 31) (hy : (y : ℤ) < 2 ^ 31) :
    rowOff rowStride y = (y : ℤ) * rowStride := by
  have h0 : 0 ≤ (y : ℤ) * rowStride := by positivity
  have h1 : (y : ℤ) * rowStride < 2 ^ 62 := by nlinarith [Int.ofNat_nonneg y]
  exact int64wrap_eq_self (by linarith) (by linarith)

lemma sample_eq {rowStride : ℤ} (buf : ℕ → ℕ) (y x : ℕ) (hrs : 0 < rowStride)
    (hrsB : rowStride < 2 ^ 31) (hy : (y : ℤ) < 2 ^ 31) :
    sample buf rowStride y x = buf (y * rowStride.toNat + x) % 256 := by
  unfold sample byteAt
  rw [rowOff_eq y hrs hrsB hy]
  congr 2
  have hcast : ((y * rowStride.toNat : ℕ) : ℤ) = (y : ℤ) * rowStride := by
    push_cast [Int.toNat_of_nonneg hrs.le]
    ring
  rw [← hcast, Int.toNat_natCast]

/-- On valid geometry in the `int32_t` range, the guard is not taken, the
`int64_t` product `width * height` is exact, and `process_gray` returns the
mean and the square root of the variance computed by the two passes. -/
lemma process_gray_valid (buf : ℕ → ℕ) {w h rs : ℤ}
    (hw : 0 < w) (hh : 0 < h) (hrs : 0 < rs)
    (hwB : w < 2 ^ 31) (hhB : h < 2 ^ 31) (hrsB : rs < 2 ^ 31) :
    process_gray (some buf) w h rs =
      ⟨(((sumSamples buf rs w.toNat h.toNat : ℚ) / ((w : ℚ) * (h : ℚ)) : ℚ) : ℝ),
       Real.sqrt ((sumSqDev buf rs w.toNat h.toNat
            ((sumSamples buf rs w.toNat h.toNat : ℚ) / ((w : ℚ) * (h : ℚ)))
          / ((w : ℚ) * (h : ℚ)) : ℚ) : ℝ)⟩ := by
  have hguard : ¬(w ≤ 0 ∨ h ≤ 0 ∨ rs ≤ 0) := by
    push_neg
    exact ⟨hw, hh, hrs⟩
  have hn : int64wrap (w * h) = w * h := by
    have h1 : w * h < 2 ^ 62 := by nlinarith
    have h0 : 0 < w * h := mul_pos hw hh
    exact int64wrap_eq_self (by linarith) (by linarith)
  show (if w ≤ 0 ∨ h ≤ 0 ∨ rs ≤ 0 then (⟨0, 0⟩ : Result) else _) = _
  rw [if_neg hguard, hn]
  have hcast : ((w * h : ℤ) : ℚ) = (w : ℚ) * (h : ℚ) := by push_cast; ring

  rw [hcast]

/-- On valid geometry the strided reads of the first pass visit exactly the
byte at offset `y * rowStride + x` for each `y < height`, `x < width`. -/
lemma sumSamples_eq (buf : ℕ → ℕ) {w h rs : ℤ}
    (hh : 0 < h) (hrs : 0 < rs) (hrsB : rs < 2 ^ 31) (hhB : h < 2 ^ 31) :
    sumSamples buf rs w.toNat h.toNat =
      ∑ y in Finset.range h.toNat, ∑ x in Finset.range w.toNat,
        buf (y * rs.toNat + x) % 256 := by
  unfold sumSamples
  refine Finset.sum_congr rfl fun y hy => Finset.sum_congr rfl fun x _ => ?_
  have hyh : (y : ℤ) < h := by
    have := Finset.mem_range.mp hy
    omega
  exact sample_eq buf y x hrs hrsB (by linarith)

/-- Same for the second pass, for any reference value `m`. -/
lemma sumSqDev_eq (buf : ℕ → ℕ) {w h rs : ℤ} (m : ℚ)
    (hh : 0 < h) (hrs : 0 < rs) (hrsB : rs < 2 ^ 31) (hhB : h < 2 ^ 31) :
    sumSqDev buf rs w.toNat h.toNat m =
      ∑ y in Finset.range h.toNat, ∑ x in Finset.range w.toNat,
        ((buf (y * rs.toNat + x) % 256 : ℕ) - m : ℚ) ^ 2 := by
  unfold sumSqDev
  refine Finset.sum_congr rfl fun y hy => Finset.sum_congr rfl fun x _ => ?_
  have hyh : (y : ℤ) < h := by
    have := Finset.mem_range.mp hy
    omega
  rw [sample_eq buf y x hrs hrsB (by linarith)]

/-- C1: on every valid input the `a` (mean) field of the result of
`process_gray` is the sum of the `width * height` samples, sample
`(y, x)` being the byte at offset `y * rowStride + x`, divided by
`N = width * height`; accumulation is exact in the model. -/
theorem mean_is_average (buf : ℕ → ℕ) (w h rs : ℤ)
    (hw : 0 < w) (hh : 0 < h) (hrs : 0 < rs)
    (hwB : w < 2 ^ 31) (hhB : h < 2 ^ 31) (hrsB : rs < 2 ^ 31) :
    (process_gray (some buf) w h rs).a =
      (((∑ y in Finset.range h.toNat, ∑ x in Finset.range w.toNat,
          (buf (y * rs.toNat + x) % 256 : ℕ) : ℕ) : ℚ) / ((w : ℚ) * (h : ℚ)) : ℚ) := by
  rw [process_gray_valid buf hw hh hrs hwB hhB hrsB,
    sumSamples_eq buf hh hrs hrsB hhB]

/-- C2: on every valid input the `b` (stddev) field of the result of
`process_gray` is the square root of the sum of squared deviations of the
samples from the first-pass mean, divided by `N = width * height`: the
population standard deviation computed in a second full pass. -/
theorem stddev_is_population_stddev (buf : ℕ → ℕ) (w h rs : ℤ)
    (hw : 0 < w) (hh : 0 < h) (hrs : 0 < rs)
    (hwB : w < 2 ^ 31) (hhB : h < 2 ^ 31) (hrsB : rs < 2 ^ 31) :
    (process_gray (some buf) w h rs).b =
      Real.sqrt (((∑ y in Finset.range h.toNat, ∑ x in Finset.range w.toNat,
          ((buf (y * rs.toNat + x) % 256 : ℕ) - (process_gray (some buf) w h rs).a : ℝ) ^ 2)
        / ((w : ℝ) * (h : ℝ)))) := by
  rw [process_gray_valid buf hw hh hrs hwB hhB hrsB]
  show Real.sqrt _ = _
  congr 1
  rw [sumSqDev_eq buf _ hh hrs hrsB hhB]
  push_cast
  ring

/-- Evaluation rule: if the two pass sums evaluate to `S` and `V`, the mean
to `M` and `R` is the nonnegative square root of the variance, then
`process_gray` returns `{M, R}`. -/
lemma process_gray_eval (buf : ℕ → ℕ) {w h rs : ℤ} {S : ℕ} {V M R : ℚ}
    (hw : 0 < w) (hh : 0 < h) (hrs : 0 < rs)
    (hwB : w < 2 ^ 31) (hhB : h < 2 ^ 31) (hrsB : rs < 2 ^ 31)
    (hS : sumSamples buf rs w.toNat h.toNat = S)
    (hM : (S : ℚ) / ((w : ℚ) * (h : ℚ)) = M)
    (hV : sumSqDev buf rs w.toNat h.toNat M = V)
    (hR : 0 ≤ R) (hR2 : R ^ 2 = V / ((w : ℚ) * (h : ℚ))) :
    process_gray (some buf) w h rs = ⟨(M : ℝ), (R : ℝ)⟩ := by
  rw [process_gray_valid buf hw hh hrs hwB hhB hrsB, hS, hM, hV, Result.mk.injEq]
  refine ⟨rfl, ?_⟩
  rw [← hR2]
  push_cast
  exact Real.sqrt_sq (by exact_mod_cast hR)

/-- The degenerate paths of `process_gray` all return the zero struct. -/
lemma process_gray_degenerate (data : Option (ℕ → ℕ)) (w h rs : ℤ)
    (hdeg : data = none ∨ w ≤ 0 ∨ h ≤ 0 ∨ rs ≤ 0) :
    process_gray data w h rs = ⟨0, 0⟩ := by
  cases data with
  | none => rfl
  | some buf =>
    have hg : w ≤ 0 ∨ h ≤ 0 ∨ rs ≤ 0 := by
      rcases hdeg with h1 | h1
      · exact absurd h1 (by simp)
      · exact h1
    show (if w ≤ 0 ∨ h ≤ 0 ∨ rs ≤ 0 then (⟨0, 0⟩ : Result) else _) = _
    rw [if_pos hg]

/-- C3: whenever the pointer is null or `width`, `height` or `rowStride` is
nonpositive, `process_gray` returns exactly `{0, 0}`; the embedding is a
total function, so this sentinel is the only signal on that path. -/
theorem zero_sentinel_on_degenerate (data : Option (ℕ → ℕ)) (w h rs : ℤ)
    (hdeg : data = none ∨ w ≤ 0 ∨ h ≤ 0 ∨ rs ≤ 0) :
    process_gray data w h rs = ⟨0, 0⟩ :=
  process_gray_degenerate data w h rs hdeg

/-- Witness for C3: a null pointer yields the zero sentinel. -/
theorem zero_sentinel_on_degenerate_witness :
    process_gray none 7 5 7 = ⟨0, 0⟩ :=
  zero_sentinel_on_degenerate none 7 5 7 (Or.inl rfl)

/-- C5: the `b` (stddev) field of the result of `process_gray` is always
nonnegative, in particular on every valid input. -/
theorem stddev_nonneg (data : Option (ℕ → ℕ)) (w h rs : ℤ) :
    0 ≤ (process_gray data w h rs).b := by
  cases data with
  | none => exact le_refl 0
  | some buf =>
    by_cases hg : w ≤ 0 ∨ h ≤ 0 ∨ rs ≤ 0
    · show (0 : ℝ) ≤ (if w ≤ 0 ∨ h ≤ 0 ∨ rs ≤ 0 then (⟨0, 0⟩ : Result) else _).b
      rw [if_pos hg]
    · show (0 : ℝ) ≤ (if w ≤ 0 ∨ h ≤ 0 ∨ rs ≤ 0 then (⟨0, 0⟩ : Result) else _).b
      rw [if_neg hg]
      exact Real.sqrt_nonneg _

/-- C9: under any degenerate condition `process_gray` returns before any
read of the buffer: on those inputs the result does not depend on the
buffer contents at all. -/
theorem degenerate_no_buffer_read (w h rs : ℤ)
    (hdeg : w ≤ 0 ∨ h ≤ 0 ∨ rs ≤ 0) (buf1 buf2 : ℕ → ℕ) :
    process_gray (some buf1) w h rs = process_gray (some buf2) w h rs := by
  rw [process_gray_degenerate (some buf1) w h rs (Or.inr hdeg),
    process_gray_degenerate (some buf2) w h rs (Or.inr hdeg)]

/-- Witness for C9: with `width = 0` two buffers that disagree everywhere
give the same result. -/
theorem degenerate_no_buffer_read_witness :
    process_gray (some fun _ => 17) 0 3 3 = process_gray (some fun _ => 200) 0 3 3 :=
  degenerate_no_buffer_read 0 3 3 (Or.inl (by decide)) (fun _ => 17) (fun _ => 200)

/-- Witness for C1 on the concrete buffer `[3, 5]` with
`width = 2, height = 1, rowStride = 2`. -/
theorem mean_is_average_witness :
    (process_gray (some bufA) 2 1 2).a =
      (((∑ y in Finset.range (1 : ℤ).toNat, ∑ x in Finset.range (2 : ℤ).toNat,
          (bufA (y * (2 : ℤ).toNat + x) % 256 : ℕ) : ℕ) : ℚ)
        / (((2 : ℤ) : ℚ) * ((1 : ℤ) : ℚ)) : ℚ) :=
  mean_is_average bufA 2 1 2 (by decide) (by decide) (by decide)
    (by decide) (by decide) (by decide)

/-- Witness for C2 on the concrete buffer `[3, 5]` with
`width = 2, height = 1, rowStride = 2`. -/
theorem stddev_is_population_stddev_witness :
    (process_gray (some bufA) 2 1 2).b =
      Real.sqrt (((∑ y in Finset.range (1 : ℤ).toNat, ∑ x in Finset.range (2 : ℤ).toNat,
          ((bufA (y * (2 : ℤ).toNat + x) % 256 : ℕ)
            - (process_gray (some bufA) 2 1 2).a : ℝ) ^ 2)
        / (((2 : ℤ) : ℝ) * ((1 : ℤ) : ℝ)))) :=
  stddev_is_population_stddev bufA 2 1 2 (by decide) (by decide) (by decide)
    (by decide) (by decide) (by decide)

/-- C4: padding bytes are never read: any two buffers that agree on the
first `width` bytes of each of the `height` rows (row `y` starting at byte
offset `y * rowStride`) produce identical results, whatever their other
bytes; in particular, `width = 2, height = 1, rowStride = 4` on
`[10, 20, 99, 99]` gives `mean = 15` and `stddev = 5`. -/
theorem padding_never_read :
    (∀ (buf1 buf2 : ℕ → ℕ) (w h rs : ℤ), 0 < w → 0 < h → 0 < rs →
      w < 2 ^ 31 → h < 2 ^ 31 → rs < 2 ^ 31 →
      (∀ y < h.toNat, ∀ x < w.toNat, buf1 (y * rs.toNat + x) = buf2 (y * rs.toNat + x)) →
      process_gray (some buf1) w h rs = process_gray (some buf2) w h rs) ∧
    process_gray (some padBuf) 2 1 4 = ⟨15, 5⟩ := by
  constructor
  · intro buf1 buf2 w h rs hw hh hrs hwB hhB hrsB hagree
    have hs : sumSamples buf1 rs w.toNat h.toNat = sumSamples buf2 rs w.toNat h.toNat := by
      rw [sumSamples_eq buf1 hh hrs hrsB hhB, sumSamples_eq buf2 hh hrs hrsB hhB]
      refine Finset.sum_congr rfl fun y hy => Finset.sum_congr rfl fun x hx => ?_
      rw [hagree y (Finset.mem_range.mp hy) x (Finset.mem_range.mp hx)]
    have hq : ∀ m : ℚ, sumSqDev buf1 rs w.toNat h.toNat m = sumSqDev buf2 rs w.toNat h.toNat m := by
      intro m
      rw [sumSqDev_eq buf1 m hh hrs hrsB hhB, sumSqDev_eq buf2 m hh hrs hrsB hhB]
      refine Finset.sum_congr rfl fun y hy => Finset.sum_congr rfl fun x hx => ?_
      rw [hagree y (Finset.mem_range.mp hy) x (Finset.mem_range.mp hx)]
    rw [process_gray_valid buf1 hw hh hrs hwB hhB hrsB,
      process_gray_valid buf2 hw hh hrs hwB hhB hrsB, hs, hq]
  · have hv0 : sample padBuf 4 0 0 = 10 := by decide
    have hv1 : sample padBuf 4 0 1 = 20 := by decide
    have hV : sumSqDev padBuf 4 (2 : ℤ).toNat (1 : ℤ).toNat 15 = 50 := by
      norm_num [sumSqDev, Finset.sum_range_succ, Finset.sum_range_zero,
        show (2 : ℤ).toNat = 2 from rfl, show (1 : ℤ).toNat = 1 from rfl, hv0, hv1]
    have heval := @process_gray_eval padBuf 2 1 4 30 50 15 5
      (by decide) (by decide) (by decide) (by decide) (by decide) (by decide)
      (by decide) (by norm_num) hV (by norm_num) (by norm_num)
    rw [heval, Result.mk.injEq]
    norm_num

/-- Witness for C4: changing only the padding bytes of the padded row does
not change the result. -/
theorem padding_never_read_witness :
    process_gray (some padBuf) 2 1 4 = process_gray (some padBufAlt) 2 1 4 :=
  padding_never_read.1 padBuf padBufAlt 2 1 4 (by decide) (by decide) (by decide)
    (by decide) (by decide) (by decide) (by decide)

/-- C6: if every sample of the `width × height` region equals a constant
`c ≤ 255`, `process_gray` returns `mean = c` and `stddev = 0`. -/
theorem constant_buffer_stats (buf : ℕ → ℕ) (w h rs : ℤ) (c : ℕ)
    (hw : 0 < w) (hh : 0 < h) (hrs : 0 < rs)
    (hwB : w < 2 ^ 31) (hhB : h < 2 ^ 31) (hrsB : rs < 2 ^ 31)
    (hc : c ≤ 255)
    (hconst : ∀ y < h.toNat, ∀ x < w.toNat, sample buf rs y x = c) :
    (process_gray (some buf) w h rs).a = (c : ℝ) ∧
      (process_gray (some buf) w h rs).b = 0 := by
  have hwQ : ((w.toNat : ℕ) : ℚ) = (w : ℚ) := by exact_mod_cast Int.toNat_of_nonneg hw.le
  have hhQ : ((h.toNat : ℕ) : ℚ) = (h : ℚ) := by exact_mod_cast Int.toNat_of_nonneg hh.le
  have hw0 : ((w : ℚ)) ≠ 0 := by
    have : (0 : ℚ) < (w : ℚ) := by exact_mod_cast hw
    exact ne_of_gt this
  have hh0 : ((h : ℚ)) ≠ 0 := by
    have : (0 : ℚ) < (h : ℚ) := by exact_mod_cast hh
    exact ne_of_gt this
  have hS : sumSamples buf rs w.toNat h.toNat = h.toNat * (w.toNat * c) := by
    unfold sumSamples
    rw [Finset.sum_congr rfl fun y hy => Finset.sum_congr rfl fun x hx =>
      hconst y (Finset.mem_range.mp hy) x (Finset.mem_range.mp hx)]
    simp [Finset.sum_const, Finset.card_range, mul_comm, mul_assoc, mul_left_comm]
  have hM : ((h.toNat * (w.toNat * c) : ℕ) : ℚ) / ((w : ℚ) * (h : ℚ)) = (c : ℚ) := by
    push_cast
    rw [hwQ, hhQ]
    field_simp
    ring
  have hV : sumSqDev buf rs w.toNat h.toNat (c : ℚ) = 0 := by
    unfold sumSqDev
    refine Finset.sum_eq_zero fun y hy => Finset.sum_eq_zero fun x hx => ?_
    rw [hconst y (Finset.mem_range.mp hy) x (Finset.mem_range.mp hx)]
    ring
  have hR2 : (0 : ℚ) ^ 2 = 0 / ((w : ℚ) * (h : ℚ)) := by simp
  have heval := process_gray_eval buf hw hh hrs hwB hhB hrsB hS hM hV (le_refl 0) hR2
  rw [heval]
  constructor
  · show ((c : ℚ) : ℝ) = (c : ℝ)
    norm_cast
  · show ((0 : ℚ) : ℝ) = 0
    norm_cast

/-- Witness for C6: the all-7 buffer with `width = height = rowStride = 1`
gives `mean = 7` and `stddev = 0`. -/
theorem constant_buffer_stats_witness :
    (process_gray (some constBuf) 1 1 1).a = ((7 : ℕ) : ℝ) ∧
      (process_gray (some constBuf) 1 1 1).b = 0 :=
  constant_buffer_stats constBuf 1 1 1 7 (by decide) (by decide) (by decide)
    (by decide) (by decide) (by decide) (by decide) (by decide)

/-- C7: on the checkerboard buffer `[0, 255, 0, 255]` with
`width = 2, height = 2, rowStride = 2`, `process_gray` returns
`mean = 127.5` and `stddev = 127.5`. -/
theorem checkerboard_example :
    process_gray (some checkerBuf) 2 2 2 = ⟨127.5, 127.5⟩ := by
  have hv0 : sample checkerBuf 2 0 0 = 0 := by decide
  have hv1 : sample checkerBuf 2 0 1 = 255 := by decide
  have hv2 : sample checkerBuf 2 1 0 = 0 := by decide
  have hv3 : sample checkerBuf 2 1 1 = 255 := by decide
  have hV : sumSqDev checkerBuf 2 (2 : ℤ).toNat (2 : ℤ).toNat 127.5 = 65025 := by
    norm_num [sumSqDev, Finset.sum_range_succ, Finset.sum_range_zero,
      show (2 : ℤ).toNat = 2 from rfl, hv0, hv1, hv2, hv3]
  have heval := @process_gray_eval checkerBuf 2 2 2 510 65025 127.5 127.5
    (by decide) (by decide) (by decide) (by decide) (by decide) (by decide)
    (by decide) (by norm_num) hV (by norm_num) (by norm_num)
  rw [heval, Result.mk.injEq]
  norm_num

/-- C8: the sample count `width * height` and every row offset
`y * rowStride`, computed on `int64_t`, are exact for all strictly positive
`int32_t` parameters: the wrap into the signed 64-bit range is the
identity there, even when the products exceed `2 ^ 31 - 1`. -/
theorem int64_products_exact (w h rs : ℤ)
    (hw : 0 < w) (hh : 0 < h) (hrs : 0 < rs)
    (hwB : w < 2 ^ 31) (hhB : h < 2 ^ 31) (hrsB : rs < 2 ^ 31) :
    int64wrap (w * h) = w * h ∧
      ∀ y : ℕ, (y : ℤ) < h → rowOff rs y = (y : ℤ) * rs := by
  constructor
  · have h1 : w * h < 2 ^ 62 := by nlinarith
    have h0 : 0 < w * h := mul_pos hw hh
    exact int64wrap_eq_self (by linarith) (by linarith)
  · intro y hy
    exact rowOff_eq y hrs hrsB (by linarith)

/-- Witness for C8 at the largest `int32_t` geometry, where
`width * height = (2 ^ 31 - 1) ^ 2` far exceeds `2 ^ 31 - 1`. -/
theorem int64_products_exact_witness :
    int64wrap (2147483647 * 2147483647) = 2147483647 * 2147483647 ∧
      ∀ y : ℕ, (y : ℤ) < 2147483647 → rowOff 2147483647 y = (y : ℤ) * 2147483647 :=
  int64_products_exact 2147483647 2147483647 2147483647
    (by decide) (by decide) (by decide) (by decide) (by decide) (by decide)

/-- Each sample is a `uint8_t`, hence at most 255. -/
lemma sample_le_255 (buf : ℕ → ℕ) (rs : ℤ) (y x : ℕ) :
    sample buf rs y x ≤ 255 := by
  unfold sample byteAt
  omega

/-- C10: on every valid input the `a` (mean) field of the result of
`process_gray` lies in the closed interval `[0, 255]`. -/
theorem mean_in_byte_range (buf : ℕ → ℕ) (w h rs : ℤ)
    (hw : 0 < w) (hh : 0 < h) (hrs : 0 < rs)
    (hwB : w < 2 ^ 31) (hhB : h < 2 ^ 31) (hrsB : rs < 2 ^ 31) :
    0 ≤ (process_gray (some buf) w h rs).a ∧
      (process_gray (some buf) w h rs).a ≤ 255 := by
  rw [process_gray_valid buf hw hh hrs hwB hhB hrsB]
  have hwQ : (0 : ℚ) < (w : ℚ) := by exact_mod_cast hw
  have hhQ : (0 : ℚ) < (h : ℚ) := by exact_mod_cast hh
  have hwhQ : (0 : ℚ) < (w : ℚ) * (h : ℚ) := mul_pos hwQ hhQ
  have hwT : ((w.toNat : ℕ) : ℚ) = (w : ℚ) := by exact_mod_cast Int.toNat_of_nonneg hw.le
  have hhT : ((h.toNat : ℕ) : ℚ) = (h : ℚ) := by exact_mod_cast Int.toNat_of_nonneg hh.le
  have hN : sumSamples buf rs w.toNat h.toNat ≤ h.toNat * (w.toNat * 255) := by
    unfold sumSamples
    have hrow : ∀ y ∈ Finset.range h.toNat,
        ∑ x in Finset.range w.toNat, sample buf rs y x ≤ w.toNat * 255 := by
      intro y _
      calc ∑ x in Finset.range w.toNat, sample buf rs y x
          ≤ ∑ _x in Finset.range w.toNat, 255 :=
            Finset.sum_le_sum fun x _ => sample_le_255 buf rs y x
        _ = w.toNat * 255 := by simp [Finset.sum_const, Finset.card_range]
    calc ∑ y in Finset.range h.toNat, ∑ x in Finset.range w.toNat, sample buf rs y x
        ≤ ∑ _y in Finset.range h.toNat, w.toNat * 255 := Finset.sum_le_sum hrow
      _ = h.toNat * (w.toNat * 255) := by simp [Finset.sum_const, Finset.card_range]
  have hSle : (sumSamples buf rs w.toNat h.toNat : ℚ) ≤ 255 * ((w : ℚ) * (h : ℚ)) := by
    have h1 : (sumSamples buf rs w.toNat h.toNat : ℚ)
        ≤ ((h.toNat * (w.toNat * 255) : ℕ) : ℚ) := by exact_mod_cast hN
    have h2 : ((h.toNat * (w.toNat * 255) : ℕ) : ℚ) = 255 * ((w : ℚ) * (h : ℚ)) := by
      push_cast
      rw [hwT, hhT]
      ring
    linarith
  constructor
  · show (0 : ℝ) ≤ (((sumSamples buf rs w.toNat h.toNat : ℚ) / ((w : ℚ) * (h : ℚ)) : ℚ) : ℝ)
    have : (0 : ℚ) ≤ (sumSamples buf rs w.toNat h.toNat : ℚ) / ((w : ℚ) * (h : ℚ)) :=
      div_nonneg (Nat.cast_nonneg _) hwhQ.le
    exact_mod_cast this
  · show (((sumSamples buf rs w.toNat h.toNat : ℚ) / ((w : ℚ) * (h : ℚ)) : ℚ) : ℝ) ≤ 255
    have : (sumSamples buf rs w.toNat h.toNat : ℚ) / ((w : ℚ) * (h : ℚ)) ≤ 255 := by
      rw [div_le_iff hwhQ]
      linarith
    exact_mod_cast this

/-- Witness for C10 on the all-7 buffer. -/
theorem mean_in_byte_range_witness :
    0 ≤ (process_gray (some constBuf) 1 1 1).a ∧
      (process_gray (some constBuf) 1 1 1).a ≤ 255 :=
  mean_in_byte_range constBuf 1 1 1 (by decide) (by decide) (by decide)
    (by decide) (by decide) (by decide)

end MyLib
